import Mathlib

/-!
# Verification of the DenonHeos connection client (src/lib/DenonHeos.js)

Shallow embedding of the core of `DenonHeos.js`: the CR-LF framer
(`_parseRxBuffer`), the response router (event vs. reply dispatch), the
response decoder (`_responseParser` together with Node's `querystring`
module), the wire writer (`_write`), the serialized send queue
(`send` / `_nextSendQueueItem`), the connection state machine
(`_connect` / `disconnect`), and the watchdog / reconnect supervisor
(`reconnect` / `_onWatchdog`).

Byte streams are modelled as `List Char` (the source concatenates socket
chunks onto a string buffer). Promises are modelled by explicit state
passing: each `async` entry point becomes a function on an explicit state
record, and the continuations attached with `.then` / `.catch` become
explicit follow-up steps, mirroring the single-threaded event-loop
execution of the source.
-/

namespace DenonHeos

/-! ## The framer: `_parseRxBuffer`, delimiter splitting

`DELIMITER = '\r\n'`.  The source does
`this._rxBuffer.split(DELIMITER)` and, when at least one complete unit is
present, shifts the first element and re-joins the rest.  That is exactly:
find the first occurrence of the two-character delimiter, return the text
before it and the text after it. -/

/-- The two-byte message delimiter, `DELIMITER = '\r\n'` in the source. -/
def delim : List Char := [ '\r', '\n' ]

/-- Extract the first CR-LF-delimited unit of a buffer.
`extractUnit b = some (u, r)` when `b = u ++ "\r\n" ++ r` and `u` contains
no delimiter; `none` when `b` contains no delimiter.  This mirrors
`rxBuffer.split('\r\n')` followed by shifting the first element and
re-joining the remainder. -/
def extractUnit : List Char → Option (List Char × List Char)
  | [] => none
  | c :: cs =>
    if c = '\r' ∧ cs.head? = some '\n' then
      some ([], cs.tail)
    else
      (extractUnit cs).map (fun p => (c :: p.1, p.2))

theorem extractUnit_length_lt : ∀ {b u r : List Char},
    extractUnit b = some (u, r) → r.length < b.length := by
  intro b
  induction b with
  | nil => intro u r h; simp [extractUnit] at h
  | cons c cs ih =>
    intro u r h
    rw [extractUnit] at h
    by_cases hc : c = '\r' ∧ cs.head? = some '\n'
    · rw [if_pos hc] at h
      simp only [Option.some.injEq, Prod.mk.injEq] at h
      obtain ⟨h1, h2⟩ := h
      subst h2
      cases cs with
      | nil => simp at hc
      | cons d ds => simp; omega
    · rw [if_neg hc] at h
      cases he : extractUnit cs with
      | none => rw [he] at h; simp at h
      | some p =>
        rw [he] at h
        simp only [Option.map_some', Option.some.injEq, Prod.mk.injEq] at h
        obtain ⟨h1, h2⟩ := h
        subst h2
        have := ih (u := p.1) (r := p.2) (by rw [he])
        simpa using Nat.lt_succ_of_lt this

/-- Splitting off the first delimited unit is stable under appending more
bytes on the right: if a complete unit is already present, later chunks do
not change it. -/
theorem extractUnit_append : ∀ {b u r : List Char} (y : List Char),
    extractUnit b = some (u, r) → extractUnit (b ++ y) = some (u, r ++ y) := by
  intro b
  induction b with
  | nil => intro u r y h; simp [extractUnit] at h
  | cons c cs ih =>
    intro u r y h
    rw [extractUnit] at h
    by_cases hc : c = '\r' ∧ cs.head? = some '\n'
    · rw [if_pos hc] at h
      simp only [Option.some.injEq, Prod.mk.injEq] at h
      obtain ⟨h1, h2⟩ := h
      cases cs with
      | nil => simp at hc
      | cons d ds =>
        obtain ⟨hcr, hd⟩ := hc
        simp only [List.head?_cons, Option.some.injEq] at hd
        subst hcr hd h1
        simp only [List.tail_cons] at h2
        subst h2
        simp [extractUnit]
    · rw [if_neg hc] at h
      cases he : extractUnit cs with
      | none => rw [he] at h; simp at h
      | some p =>
        rw [he] at h
        simp only [Option.map_some', Option.some.injEq, Prod.mk.injEq] at h
        obtain ⟨h1, h2⟩ := h
        subst h1 h2
        have hcs := ih y (by rw [he] : extractUnit cs = some (p.1, p.2))
        have hc' : ¬(c = '\r' ∧ (cs ++ y).head? = some '\n') := by
          intro hcon
          apply hc
          refine ⟨hcon.1, ?_⟩
          cases cs with
          | nil => simp [extractUnit] at he
          | cons d ds =>
            simpa using (by simpa using hcon.2 : d = '\n') ▸ rfl
        rw [List.cons_append, extractUnit, if_neg hc', hcs]
        rfl

/-! ## Node's `querystring` module

The source uses `querystring.parse` (in `_responseParser`),
`querystring.stringify` and `querystring.unescape` (in `_write`).  These
are Node standard-library functions; they are modelled here from their
documented behaviour:

* `parse` splits on `'&'` (skipping empty segments), splits each segment
  at its first `'='` (a segment without `'='` becomes a key with empty
  value), decodes `'+'` as a space and `%XX` escapes in keys and values,
  and collects duplicate keys into an array of values in occurrence
  order (a singly-occurring key maps to a plain string);
* `stringify` joins `escape(key) + '=' + escape(value)` with `'&'`,
  where `escape` percent-encodes (uppercase hex, UTF-8 bytes) every
  character outside `A-Z a-z 0-9 - . _ ~ ! * ( )` and the apostrophe;
* `unescape` decodes `%XX` escape sequences and leaves `'+'` alone.

Percent-escape decoding is modelled per byte (ISO-8859-1): every input
appearing in this development is ASCII, where this agrees with Node's
UTF-8 decoding.  `parse`'s default `maxKeys` limit of 1000 is not
modelled; all inputs considered are far smaller. -/

/-- A decoded query-string value: a plain string for a key occurring
once, an array of strings for a repeated key. -/
inductive QsVal where
  | str (s : String)
  | arr (vs : List String)
deriving DecidableEq, Repr

/-- Value of a hexadecimal digit character. -/
def hexVal (c : Char) : Option Nat :=
  if '0' ≤ c ∧ c ≤ '9' then some (c.toNat - 48)
  else if 'a' ≤ c ∧ c ≤ 'f' then some (c.toNat - 87)
  else if 'A' ≤ c ∧ c ≤ 'F' then some (c.toNat - 55)
  else none

/-- `querystring.unescape`: decode `%XX` escape sequences (malformed
escapes pass through literally); `'+'` is not touched. -/
def qsUnescapeL : List Char → List Char
  | [] => []
  | c :: rest =>
    if c = '%' then
      match hexVal (rest.getD 0 ' '), hexVal (rest.getD 1 ' '), rest with
      | some a, some b, _ :: _ :: rest2 => Char.ofNat (16 * a + b) :: qsUnescapeL rest2
      | _, _, r => c :: qsUnescapeL r
    else c :: qsUnescapeL rest

/-- Characters `querystring.escape` leaves unescaped: alphanumerics and
`- . _ ~ ! * ( )` and the apostrophe (code 39). -/
def unreservedChar (c : Char) : Bool :=
  (('A' ≤ c ∧ c ≤ 'Z') ∨ ('a' ≤ c ∧ c ≤ 'z') ∨ ('0' ≤ c ∧ c ≤ '9')
    ∨ c = '-' ∨ c = '.' ∨ c = '_' ∨ c = '~' ∨ c = '!' ∨ c = '*'
    ∨ c = '(' ∨ c = ')' ∨ c.toNat = 39 : Bool)

/-- UTF-8 byte sequence of a character. -/
def utf8Bytes (c : Char) : List Nat :=
  let n := c.toNat
  if n < 128 then [n]
  else if n < 2048 then [192 + n / 64, 128 + n % 64]
  else if n < 65536 then [224 + n / 4096, 128 + (n / 64) % 64, 128 + n % 64]
  else [240 + n / 262144, 128 + (n / 4096) % 64, 128 + (n / 64) % 64, 128 + n % 64]

/-- Uppercase hexadecimal digit of `n < 16`. -/
def hexDigit (n : Nat) : Char :=
  if n < 10 then Char.ofNat (48 + n) else Char.ofNat (55 + n)

/-- Percent-encode one byte as `%XX`. -/
def pctEncodeByte (b : Nat) : List Char :=
  [ '%', hexDigit (b / 16), hexDigit (b % 16) ]

/-- `querystring.escape`: percent-encode every character that is not in
the unescaped set. -/
def qsEscapeL : List Char → List Char
  | [] => []
  | c :: rest =>
    (if unreservedChar c then [c] else ((utf8Bytes c).map pctEncodeByte).flatten)
      ++ qsEscapeL rest

/-- `querystring.stringify`: join `escape(k) + '=' + escape(v)` pairs
with `'&'` (object key insertion order). -/
def qsStringifyL : List (String × String) → List Char
  | [] => []
  | [(k, v)] => qsEscapeL k.data ++ [ '=' ] ++ qsEscapeL v.data
  | (k, v) :: rest =>
    qsEscapeL k.data ++ [ '=' ] ++ qsEscapeL v.data ++ [ '&' ] ++ qsStringifyL rest

/-- The same pairs joined raw (no escaping): `k=v` joined with `'&'`.
Used to describe what `unescape(stringify(qs))` produces. -/
def rawPairsL : List (String × String) → List Char
  | [] => []
  | [(k, v)] => k.data ++ [ '=' ] ++ v.data
  | (k, v) :: rest => k.data ++ [ '=' ] ++ v.data ++ [ '&' ] ++ rawPairsL rest

/-- Split a character list on `'&'`. -/
def splitOnAmp : List Char → List (List Char)
  | [] => [[]]
  | c :: rest =>
    if c = '&' then [] :: splitOnAmp rest
    else
      match splitOnAmp rest with
      | [] => [[c]]
      | piece :: more => (c :: piece) :: more

/-- Split a segment at its first `'='`: `(key, value)`; a segment
without `'='` is all key, with empty value. -/
def splitPair : List Char → List Char × List Char
  | [] => ([], [])
  | c :: rest =>
    if c = '=' then ([], rest)
    else
      let p := splitPair rest
      (c :: p.1, p.2)

/-- Per-piece decoding used by `querystring.parse`: `'+'` becomes a
space, then `%XX` escapes are decoded. -/
def qsDecodePiece (l : List Char) : String :=
  ⟨qsUnescapeL (l.map (fun c => if c = '+' then ' ' else c))⟩

/-- Add one key/value pair to the accumulated mapping the way
`querystring.parse` does: a fresh key is appended with a string value; a
repeated key upgrades its value to an array (keeping the key at its
first position) or pushes onto an existing array. -/
def qsAddPair : List (String × QsVal) → String → String → List (String × QsVal)
  | [], k, v => [(k, QsVal.str v)]
  | (k0, v0) :: rest, k, v =>
    if k0 = k then
      match v0 with
      | QsVal.str s => (k0, QsVal.arr [s, v]) :: rest
      | QsVal.arr vs => (k0, QsVal.arr (vs ++ [v])) :: rest
    else (k0, v0) :: qsAddPair rest k v

/-- `querystring.parse` on a character list. -/
def qsparseL (l : List Char) : List (String × QsVal) :=
  ((splitOnAmp l).filter (fun piece => piece ≠ [])).foldl
    (fun acc piece =>
      let p := splitPair piece
      qsAddPair acc (qsDecodePiece p.1) (qsDecodePiece p.2))
    []

/-- `querystring.parse` on a string. -/
def qsparse (s : String) : List (String × QsVal) := qsparseL s.data

/-- Modelled from the spec: the decoding the spec describes instead —
"a flat string-to-string mapping in which, when a key occurs more than
once, the last occurrence wins".  Used only to compare against the
behaviour of Node's `querystring.parse` (`qsparse`). -/
def qsAddPairLastWins : List (String × QsVal) → String → String → List (String × QsVal)
  | [], k, v => [(k, QsVal.str v)]
  | (k0, v0) :: rest, k, v =>
    if k0 = k then (k0, QsVal.str v) :: rest
    else (k0, v0) :: qsAddPairLastWins rest k v

/-- Modelled from the spec: query-string decoding with last-occurrence-
wins semantics for duplicate keys. -/
def qsparseLastWins (s : String) : List (String × QsVal) :=
  ((splitOnAmp s.data).filter (fun piece => piece ≠ [])).foldl
    (fun acc piece =>
      let p := splitPair piece
      qsAddPairLastWins acc (qsDecodePiece p.1) (qsDecodePiece p.2))
    []

/-! ## `_responseParser` -/

/-- The nested `heos` object of a decoded response document, after
`JSON.parse`.  Fields are optional; `_responseParser` applies the
defaults `result = null`, `command = null`, `message = ''`.  The
`result` field is decoded but never used (the `result === 'fail'` check
in the source is commented out).  The top-level `payload` passes through
the parser uninspected; it is modelled as an opaque handle. -/
structure HeosObj where
  result : Option String
  command : Option String
  message : Option String
deriving DecidableEq, Repr

/-- A decoded top-level response document: `{ heos, payload = null }`. -/
structure RawDoc where
  heos : Option HeosObj
  payload : Option Nat
deriving DecidableEq, Repr

/-- Output of `_responseParser`: either the envelope
`{ payload, command, message: querystring.parse(message) }`, or (when
the document has no `heos` object) an `Error('Unknown Heos Response')`
value. -/
inductive Parsed where
  | env (command : Option String) (message : List (String × QsVal)) (payload : Option Nat)
  | fail (msg : String)
deriving DecidableEq, Repr

/-- `_responseParser` (src/lib/DenonHeos.js lines 271-296). -/
def responseParser (doc : RawDoc) : Parsed :=
  match doc.heos with
  | some h => Parsed.env h.command (qsparse (h.message.getD "")) doc.payload
  | none => Parsed.fail "Unknown Heos Response"

/-! ## `_write` -/

/-- `_write` (src/lib/DenonHeos.js lines 298-309): with no live socket it
throws `not_connected` (modelled as `none`); otherwise the bytes written
are `"heos://" + command + "?" + querystring.unescape(querystring.stringify(qs))
+ DELIMITER`. -/
def writeData (socketLive : Bool) (command : String) (qs : List (String × String)) :
    Option (List Char) :=
  if socketLive then
    some ("heos://".data ++ command.data ++ [ '?' ]
      ++ qsUnescapeL (qsStringifyL qs) ++ delim)
  else none

/-- Modelled from the spec: the wire form the spec claims —
`scheme://<command>?` followed by the url-encoded `key=value` pairs
joined by `&`, terminated by CR-LF (the url-encoded pairs are exactly
`querystring.stringify`'s output, without the source's `unescape`). -/
def specWireLine (command : String) (qs : List (String × String)) : List Char :=
  "heos://".data ++ command.data ++ [ '?' ] ++ qsStringifyL qs ++ delim

/-! ## The response router and the receive loop (`_parseRxBuffer`)

`_parseRxBuffer` (lines 237-269) splits one delimited unit off the
buffer, decodes it (`JSON.parse` + `_responseParser`), and routes it:
an event-prefixed command is emitted on the generic `'event'` channel
and on its named channel and the loop recurses; otherwise, if a send
queue item is current, the response settles it and the function
*returns* (the trailing recursive call is skipped); with no current
item the unit is dropped and the loop recurses.

`JSON.parse` composed with `_responseParser` is abstracted as a
per-unit `decode` function (the unit's bytes determine the decoded
value); all theorems hold for every such function. -/

/-- How a routed reply settles the current send-queue item:
`resolve(response)` or, for an `Error` value, `reject(response)`. -/
inductive RouteOutcome where
  | resolvedEnv (p : Parsed)
  | rejectedErr (msg : String)
deriving DecidableEq

/-- One `emit` performed by the router: the generic `'event'` channel
(carrying the event name and the message) or the named event channel
(carrying just the message). -/
inductive EmitRecord where
  | anyEvent (event : String) (message : List (String × QsVal))
  | named (event : String) (message : List (String × QsVal))
deriving DecidableEq

/-- Router-visible state: the current send-queue item (by identity),
settlements performed, emissions performed. -/
structure RouteState where
  current : Option Nat
  settled : List (Nat × RouteOutcome)
  emitted : List EmitRecord
deriving DecidableEq

/-- `command.startsWith('event/')`: the string begins with the
six-character event marker. -/
def startsWithEvent (cmd : String) : Bool := "event/".data.isPrefixOf cmd.data

/-- `response.command && response.command.startsWith('event/')`. -/
def isEventResp : Parsed → Bool
  | Parsed.env (some cmd) _ _ => startsWithEvent cmd
  | _ => false

/-- `response.command.replace('event/', '')`: under the `startsWith`
guard the first occurrence of the pattern is the leading one, so the
replacement drops the six-character head. -/
def eventNameOf (cmd : String) : String := ⟨cmd.data.drop 6⟩

/-- `if (response instanceof Error) reject(response) else resolve(response)`. -/
def settleOf : Parsed → RouteOutcome
  | Parsed.fail m => RouteOutcome.rejectedErr m
  | p => RouteOutcome.resolvedEnv p

/-- The non-event arm of the router (lines 253-264): settle the current
item, if any, and stop parsing (`return`); with no current item, drop
the response and continue parsing.  The returned flag tells whether the
receive loop recurses. -/
def routeReply (response : Parsed) (r : RouteState) : RouteState × Bool :=
  match r.current with
  | some c => ({ r with settled := r.settled ++ [(c, settleOf response)] }, false)
  | none => (r, true)

/-- The router (lines 246-264): event-prefixed responses are broadcast
on both channels and parsing continues; anything else is a reply. -/
def routeResponse (response : Parsed) (r : RouteState) : RouteState × Bool :=
  match response with
  | Parsed.env (some cmd) msg _ =>
    if startsWithEvent cmd then
      let event := eventNameOf cmd
      ({ r with
          emitted := r.emitted
            ++ [EmitRecord.anyEvent event msg, EmitRecord.named event msg] }, true)
    else routeReply response r
  | _ => routeReply response r

/-- State of the receive side: buffer, router state, and the cumulative
sequence of decoded envelopes in decode order. -/
structure RxState where
  rxBuffer : List Char
  route : RouteState
  decoded : List Parsed
deriving DecidableEq

/-- Fuel-indexed receive loop.  Each iteration consumes one delimited
unit, strictly shrinking the buffer, so any fuel exceeding the buffer
length makes this the exact recursion of `_parseRxBuffer`
(`parseRxBuffer_eq` below). -/
def parseSteps (decode : List Char → Parsed) : Nat → RxState → RxState
  | 0, s => s
  | n + 1, s =>
    match extractUnit s.rxBuffer with
    | none => s
    | some (u, rest) =>
      let response := decode u
      let rr := routeResponse response s.route
      let s1 : RxState := ⟨rest, rr.1, s.decoded ++ [response]⟩
      if rr.2 then parseSteps decode n s1 else s1

/-- `_parseRxBuffer` (lines 237-269). -/
def parseRxBuffer (decode : List Char → Parsed) (s : RxState) : RxState :=
  parseSteps decode (s.rxBuffer.length + 1) s

theorem parseSteps_fuel (decode : List Char → Parsed) :
    ∀ (n : Nat), ∀ (m : Nat) (s : RxState), s.rxBuffer.length < n →
      s.rxBuffer.length < m → parseSteps decode n s = parseSteps decode m s := by
  intro n
  induction n with
  | zero => intro m s h1 h2; omega
  | succ n ih =>
    intro m s h1 h2
    cases m with
    | zero => omega
    | succ m =>
      rw [parseSteps, parseSteps]
      cases hex : extractUnit s.rxBuffer with
      | none => rfl
      | some p =>
        obtain ⟨u, rest⟩ := p
        simp only
        have hlen := extractUnit_length_lt hex
        by_cases hc : (routeResponse (decode u) s.route).2 = true
        · rw [if_pos hc, if_pos hc]
          exact ih m ⟨rest, _, _⟩ (by simpa using Nat.lt_of_lt_of_le hlen (Nat.lt_succ_iff.mp h1))
            (by simpa using Nat.lt_of_lt_of_le hlen (Nat.lt_succ_iff.mp h2))
        · rw [if_neg hc, if_neg hc]

/-- The defining recursion of `_parseRxBuffer`: extract a unit, decode,
route; recurse unless the response settled the current item. -/
theorem parseRxBuffer_eq (decode : List Char → Parsed) (s : RxState) :
    parseRxBuffer decode s =
      match extractUnit s.rxBuffer with
      | none => s
      | some (u, rest) =>
        let response := decode u
        let rr := routeResponse response s.route
        let s1 : RxState := ⟨rest, rr.1, s.decoded ++ [response]⟩
        if rr.2 then parseRxBuffer decode s1 else s1 := by
  show parseSteps decode (s.rxBuffer.length + 1) s = _
  rw [parseSteps]
  cases hex : extractUnit s.rxBuffer with
  | none => rfl
  | some p =>
    obtain ⟨u, rest⟩ := p
    simp only
    have hlen := extractUnit_length_lt hex
    by_cases hc : (routeResponse (decode u) s.route).2 = true
    · rw [if_pos hc, if_pos hc]
      exact parseSteps_fuel decode _ _ ⟨rest, _, _⟩ (by simpa using hlen)
        (by simp)
    · rw [if_neg hc, if_neg hc]

/-- `this._rxBuffer += chunk`. -/
def appendChunk (s : RxState) (chunk : List Char) : RxState :=
  { s with rxBuffer := s.rxBuffer ++ chunk }

/-- The socket `data` handler (lines 90-93): append the chunk to the
buffer and run `_parseRxBuffer`. -/
def onData (decode : List Char → Parsed) (s : RxState) (chunk : List Char) : RxState :=
  parseRxBuffer decode (appendChunk s chunk)

/-- Feed a sequence of data chunks. -/
def feedAll (decode : List Char → Parsed) (s : RxState) (chunks : List (List Char)) :
    RxState :=
  chunks.foldl (onData decode) s

theorem routeReply_of_none (response : Parsed) (r : RouteState) (h : r.current = none) :
    routeReply response r = (r, true) := by
  obtain ⟨cur, st, em⟩ := r
  simp only at h
  subst h
  rfl

theorem routeReply_of_some (response : Parsed) (r : RouteState) (c : Nat)
    (h : r.current = some c) :
    routeReply response r
      = ({ r with settled := r.settled ++ [(c, settleOf response)] }, false) := by
  obtain ⟨cur, st, em⟩ := r
  simp only at h
  subst h
  rfl

theorem routeReply_current (response : Parsed) (r : RouteState) :
    (routeReply response r).1.current = r.current := by
  obtain ⟨cur, st, em⟩ := r
  cases cur <;> rfl

/-- Defining equation of the router on a non-null event-capable command. -/
theorem routeResponse_env_some (cmd : String) (msg : List (String × QsVal))
    (payload : Option Nat) (r : RouteState) :
    routeResponse (Parsed.env (some cmd) msg payload) r =
      if startsWithEvent cmd then
        ({ r with
            emitted := r.emitted ++ [EmitRecord.anyEvent (eventNameOf cmd) msg,
              EmitRecord.named (eventNameOf cmd) msg] }, true)
      else routeReply (Parsed.env (some cmd) msg payload) r := rfl

theorem routeResponse_env_none (msg : List (String × QsVal)) (payload : Option Nat)
    (r : RouteState) :
    routeResponse (Parsed.env none msg payload) r
      = routeReply (Parsed.env none msg payload) r := rfl

theorem routeResponse_fail (m : String) (r : RouteState) :
    routeResponse (Parsed.fail m) r = routeReply (Parsed.fail m) r := rfl

theorem routeResponse_current (response : Parsed) (r : RouteState) :
    (routeResponse response r).1.current = r.current := by
  cases response with
  | env cmd msg payload =>
    cases cmd with
    | none => rw [routeResponse_env_none]; exact routeReply_current _ r
    | some c =>
      rw [routeResponse_env_some]
      by_cases h : startsWithEvent c = true
      · rw [if_pos h]
      · rw [if_neg h]; exact routeReply_current _ r
  | fail m => rw [routeResponse_fail]; exact routeReply_current _ r

theorem routeResponse_cont_of_none (response : Parsed) (r : RouteState)
    (h : r.current = none) : (routeResponse response r).2 = true := by
  cases response with
  | env cmd msg payload =>
    cases cmd with
    | none => rw [routeResponse_env_none, routeReply_of_none _ _ h]
    | some c =>
      rw [routeResponse_env_some]
      by_cases hc : startsWithEvent c = true
      · rw [if_pos hc]
      · rw [if_neg hc, routeReply_of_none _ _ h]
  | fail m => rw [routeResponse_fail, routeReply_of_none _ _ h]

theorem parseSteps_current (decode : List Char → Parsed) :
    ∀ (n : Nat) (s : RxState),
      (parseSteps decode n s).route.current = s.route.current := by
  intro n
  induction n with
  | zero => intro s; rfl
  | succ n ih =>
    intro s
    rw [parseSteps]
    cases hex : extractUnit s.rxBuffer with
    | none => rfl
    | some p =>
      obtain ⟨u, rest⟩ := p
      simp only
      by_cases hc : (routeResponse (decode u) s.route).2 = true
      · rw [if_pos hc, ih]
        exact routeResponse_current _ _
      · rw [if_neg hc]
        exact routeResponse_current _ _

theorem parseRxBuffer_current (decode : List Char → Parsed) (s : RxState) :
    (parseRxBuffer decode s).route.current = s.route.current :=
  parseSteps_current decode _ s

/-- With no pending command the receive loop always recurses, so it
stops only once the buffer holds no complete unit. -/
theorem parseRxBuffer_drains (decode : List Char → Parsed) :
    ∀ (k : Nat) (s : RxState), s.rxBuffer.length ≤ k → s.route.current = none →
      extractUnit (parseRxBuffer decode s).rxBuffer = none := by
  intro k
  induction k with
  | zero =>
    intro s hk hcur
    have hb : s.rxBuffer = [] := List.length_eq_zero.mp (Nat.le_zero.mp hk)
    have hnone : extractUnit s.rxBuffer = none := by rw [hb]; rfl
    have hs : parseRxBuffer decode s = s := by rw [parseRxBuffer_eq, hnone]
    rw [hs]; exact hnone
  | succ k ih =>
    intro s hk hcur
    rw [parseRxBuffer_eq]
    cases hex : extractUnit s.rxBuffer with
    | none => exact hex
    | some p =>
      obtain ⟨u, rest⟩ := p
      simp only
      rw [if_pos (routeResponse_cont_of_none _ _ hcur)]
      refine ih _ ?_ ?_
      · exact Nat.le_of_lt_succ (Nat.lt_of_lt_of_le (extractUnit_length_lt hex) hk)
      · show (routeResponse (decode u) s.route).1.current = none
        rw [routeResponse_current]; exact hcur

/-- Parsing, then appending more bytes and parsing again, is the same
as appending the bytes first and parsing once — provided no pending
command can cut the loop short (`current = none`). -/
theorem parse_appendChunk (decode : List Char → Parsed) :
    ∀ (k : Nat) (s : RxState) (y : List Char), s.rxBuffer.length ≤ k →
      s.route.current = none →
      parseRxBuffer decode (appendChunk (parseRxBuffer decode s) y)
        = parseRxBuffer decode (appendChunk s y) := by
  intro k
  induction k with
  | zero =>
    intro s y hk hcur
    have hb : s.rxBuffer = [] := List.length_eq_zero.mp (Nat.le_zero.mp hk)
    have hnone : extractUnit s.rxBuffer = none := by rw [hb]; rfl
    have hs : parseRxBuffer decode s = s := by
      rw [parseRxBuffer_eq, hnone]
    rw [hs]
  | succ k ih =>
    intro s y hk hcur
    cases hex : extractUnit s.rxBuffer with
    | none =>
      have hs : parseRxBuffer decode s = s := by
        rw [parseRxBuffer_eq, hex]
      rw [hs]
    | some p =>
      obtain ⟨u, rest⟩ := p
      have hcont := routeResponse_cont_of_none (decode u) s.route hcur
      have hs : parseRxBuffer decode s
          = parseRxBuffer decode ⟨rest, (routeResponse (decode u) s.route).1,
              s.decoded ++ [decode u]⟩ := by
        rw [parseRxBuffer_eq, hex]
        simp only [hcont, if_true]
      have hrhs : parseRxBuffer decode (appendChunk s y)
          = parseRxBuffer decode (appendChunk
              ⟨rest, (routeResponse (decode u) s.route).1, s.decoded ++ [decode u]⟩ y) := by
        rw [parseRxBuffer_eq]
        simp only [appendChunk]
        rw [extractUnit_append y hex]
        simp only [hcont, if_true]
      rw [hs, hrhs]
      refine ih ⟨rest, (routeResponse (decode u) s.route).1, s.decoded ++ [decode u]⟩ y ?_ ?_
      · exact Nat.le_of_lt_succ (Nat.lt_of_lt_of_le (extractUnit_length_lt hex) hk)
      · show (routeResponse (decode u) s.route).1.current = none
        rw [routeResponse_current]; exact hcur

/-! ## The dispatch queue: `send` (lines 315-344) and `_nextSendQueueItem` (lines 217-235)

`send` pushes a queue item holding the command and the caller's
resolver/rejecter, calls `_nextSendQueueItem`, and races the item's
promise against a 5-second timer; the continuation of the race (both on
success and on failure) clears `_currentSendQueueItem` and calls
`_nextSendQueueItem` again.  `_nextSendQueueItem` returns if an item is
current, otherwise shifts the queue head, makes it current and writes it
to the socket.

Queue items are identified by a fresh number assigned at submission
(mirroring JavaScript object identity of the `sendQueueItem`); the item
also records its command name.  The event-loop steps that can touch the
queue are:

* `submit` — a caller invokes `send` (the synchronous part plus the
  immediate `_nextSendQueueItem`);
* `reply` — a routed non-event response settles the current item
  (`_parseRxBuffer`), and the race continuation then clears the current
  slot and advances the queue;
* `timeoutFires` — the 5-second timer of a submitted item fires; if the
  item's race is still unsettled it rejects with `Error('Send Timeout')`
  and the race continuation clears the current slot (whatever it holds)
  and advances the queue; if the race has already settled the rejection
  is a no-op. -/

/-- How a caller's `send` promise settles. -/
inductive SOutcome where
  | reply (response : Parsed)
  | notConnected
  | timeout
deriving DecidableEq

/-- State of the dispatch queue.  `writes` is the log of items written
to the socket, in order; `settled` is the log of caller settlements, in
order; `nextId` supplies fresh item identities; `socketLive` is whether
`this._socket` is non-null (so `_write` does not throw). -/
structure SendState where
  sendQueue : List (Nat × String)
  current : Option (Nat × String)
  writes : List (Nat × String)
  settled : List (Nat × SOutcome)
  nextId : Nat
  socketLive : Bool
deriving DecidableEq

/-- Ids of items whose races have settled. -/
def settledIds (s : SendState) : List Nat := s.settled.map Prod.fst

/-- `_nextSendQueueItem` (lines 217-235).  With a live socket the
shifted head is written; with no socket `_write` throws, the item is
rejected, and the recursive `_nextSendQueueItem()` call in the catch
branch returns immediately because `_currentSendQueueItem` is still set
to this very item. -/
def nextSendQueueItem (s : SendState) : SendState :=
  match s.current with
  | some _ => s
  | none =>
    match s.sendQueue with
    | [] => s
    | item :: rest =>
      if s.socketLive then
        { s with sendQueue := rest, current := some item,
                 writes := s.writes ++ [item] }
      else
        { s with sendQueue := rest, current := some item,
                 settled := s.settled ++ [(item.1, SOutcome.notConnected)] }

/-- Event-loop events that drive the dispatch queue. -/
inductive SendEvent where
  | submit (command : String)
  | reply (response : Parsed)
  | timeoutFires (item : Nat)
deriving DecidableEq

/-- One event-loop step of the dispatch queue. -/
def sendStep (s : SendState) : SendEvent → SendState
  | SendEvent.submit command =>
    nextSendQueueItem
      { s with sendQueue := s.sendQueue ++ [(s.nextId, command)],
               nextId := s.nextId + 1 }
  | SendEvent.reply response =>
    match s.current with
    | none => s
    | some item =>
      if (settledIds s).contains item.1 then s
      else
        nextSendQueueItem
          { s with current := none,
                   settled := s.settled ++ [(item.1, SOutcome.reply response)] }
  | SendEvent.timeoutFires c =>
    if (settledIds s).contains c then s
    else
      nextSendQueueItem
        { s with current := none,
                 settled := s.settled ++ [(c, SOutcome.timeout)] }

/-- Run a sequence of event-loop events. -/
def runTrace (s : SendState) (events : List SendEvent) : SendState :=
  events.foldl sendStep s

/-- The idle connected state: empty queue, nothing current, live socket. -/
def initSend : SendState := ⟨[], none, [], [], 0, true⟩

/-- Queue items for commands `cs` with consecutive ids starting at `n`. -/
def tagFrom : Nat → List String → List (Nat × String)
  | _, [] => []
  | n, c :: cs => (n, c) :: tagFrom (n + 1) cs

theorem tagFrom_fst_mem : ∀ (cs : List String) (n i : Nat),
    i ∈ (tagFrom n cs).map Prod.fst → n ≤ i := by
  intro cs
  induction cs with
  | nil => intro n i h; simp [tagFrom] at h
  | cons c cs ih =>
    intro n i h
    simp only [tagFrom, List.map_cons, List.mem_cons] at h
    rcases h with h | h
    · omega
    · have := ih (n + 1) i h
      omega

theorem nextSendQueueItem_busy (s : SendState) (item : Nat × String)
    (h : s.current = some item) : nextSendQueueItem s = s := by
  obtain ⟨q, cur, w, st, n, l⟩ := s
  simp only at h
  subst h
  rfl

theorem nextSendQueueItem_idle_nil (s : SendState) (h : s.current = none)
    (hq : s.sendQueue = []) : nextSendQueueItem s = s := by
  obtain ⟨q, cur, w, st, n, l⟩ := s
  simp only at h hq
  subst h hq
  rfl

theorem nextSendQueueItem_idle_live (s : SendState) (item : Nat × String)
    (rest : List (Nat × String)) (h : s.current = none)
    (hq : s.sendQueue = item :: rest) (hl : s.socketLive = true) :
    nextSendQueueItem s
      = { s with sendQueue := rest, current := some item,
                 writes := s.writes ++ [item] } := by
  obtain ⟨q, cur, w, st, n, l⟩ := s
  simp only at h hq hl
  subst h hq hl
  simp [nextSendQueueItem]

theorem nextSendQueueItem_socketLive (s : SendState) :
    (nextSendQueueItem s).socketLive = s.socketLive := by
  obtain ⟨q, cur, w, st, n, l⟩ := s
  cases cur with
  | some item => rfl
  | none =>
    cases q with
    | nil => rfl
    | cons item rest =>
      simp only [nextSendQueueItem]
      split <;> rfl

/-- Submitting while a command is current only queues: nothing is
written, nothing settles. -/
theorem runTrace_submits_busy : ∀ (cs : List String) (s : SendState) (item : Nat × String),
    s.current = some item →
    runTrace s (cs.map SendEvent.submit)
      = { s with sendQueue := s.sendQueue ++ tagFrom s.nextId cs,
                 nextId := s.nextId + cs.length } := by
  intro cs
  induction cs with
  | nil =>
    intro s item h
    simp [runTrace, tagFrom]
  | cons c cs ih =>
    intro s item h
    have hstep : sendStep s (SendEvent.submit c)
        = { s with sendQueue := s.sendQueue ++ [(s.nextId, c)],
                   nextId := s.nextId + 1 } := by
      show nextSendQueueItem _ = _
      exact nextSendQueueItem_busy _ item h
    show runTrace (sendStep s (SendEvent.submit c)) (List.map SendEvent.submit cs) = _
    rw [hstep,
      ih { s with sendQueue := s.sendQueue ++ [(s.nextId, c)], nextId := s.nextId + 1 }
        item h]
    simp only [tagFrom, List.append_assoc, List.singleton_append, List.length_cons,
      SendState.mk.injEq, and_true, true_and]
    omega

theorem natList_contains_eq_false {l : List Nat} {m : Nat} (h : m ∉ l) :
    l.contains m = false := by
  simpa using h

theorem sendStep_reply (s : SendState) (item : Nat × String) (r : Parsed)
    (h : s.current = some item) (hset : (settledIds s).contains item.1 = false) :
    sendStep s (SendEvent.reply r)
      = nextSendQueueItem
          { s with current := none,
                   settled := s.settled ++ [(item.1, SOutcome.reply r)] } := by
  obtain ⟨q, cur, w, st, n, l⟩ := s
  simp only at h
  subst h
  show (if (settledIds ⟨q, some item, w, st, n, l⟩).contains item.1 = true
      then _ else _) = _
  rw [if_neg (by rw [hset]; exact Bool.false_ne_true)]

/-- Draining replies in order: each routed reply settles the command at
the head position, and the freed slot immediately writes the next
queued command. -/
theorem runTrace_replies : ∀ (rs : List Parsed) (q : List String) (m : Nat) (c0 : String)
    (w : List (Nat × String)) (st : List (Nat × SOutcome)) (n : Nat),
    rs.length = q.length + 1 →
    (∀ i ∈ st.map Prod.fst, i < m) →
    runTrace ⟨tagFrom (m + 1) q, some (m, c0), w, st, n, true⟩
        (rs.map SendEvent.reply)
      = ⟨[], none, w ++ tagFrom (m + 1) q,
          st ++ (m :: (tagFrom (m + 1) q).map Prod.fst).zip (rs.map SOutcome.reply),
          n, true⟩ := by
  intro rs
  induction rs with
  | nil => intro q m c0 w st n hlen hst; simp at hlen
  | cons r rs ih =>
    intro q m c0 w st n hlen hst
    have hset : (settledIds ⟨tagFrom (m + 1) q, some (m, c0), w, st, n, true⟩).contains m
        = false := by
      apply natList_contains_eq_false
      intro hmem
      exact absurd (hst m hmem) (lt_irrefl m)
    show runTrace (sendStep ⟨tagFrom (m + 1) q, some (m, c0), w, st, n, true⟩
        (SendEvent.reply r)) (rs.map SendEvent.reply) = _
    rw [sendStep_reply _ (m, c0) r rfl hset]
    cases q with
    | nil =>
      have hrs : rs = [] := List.length_eq_zero.mp (by simpa using hlen)
      subst hrs
      rw [show tagFrom (m + 1) ([] : List String) = [] from rfl]
      rw [nextSendQueueItem_idle_nil _ rfl rfl]
      simp [runTrace, tagFrom]
    | cons c1 q' =>
      have hlen' : rs.length = q'.length + 1 := by simpa using hlen
      rw [show tagFrom (m + 1) (c1 :: q') = (m + 1, c1) :: tagFrom (m + 2) q' from rfl]
      rw [nextSendQueueItem_idle_live _ (m + 1, c1) (tagFrom (m + 2) q') rfl rfl rfl]
      have hst' : ∀ i ∈ (st ++ [(m, SOutcome.reply r)]).map Prod.fst, i < m + 1 := by
        intro i hi
        simp only [List.map_append, List.mem_append, List.map_cons, List.map_nil,
          List.mem_cons, List.not_mem_nil, or_false] at hi
        rcases hi with hi | hi
        · exact Nat.lt_succ_of_lt (hst i hi)
        · omega
      have := ih q' (m + 1) c1 (w ++ [(m + 1, c1)]) (st ++ [(m, SOutcome.reply r)]) n
        hlen' hst'
      rw [show (m + 1) + 1 = m + 2 from rfl] at this
      rw [this]
      simp only [tagFrom, List.map_cons, List.zip_cons_cons, List.append_assoc,
        List.singleton_append, List.cons_append, SendState.mk.injEq, List.nil_append]

/-- "At most one command outstanding": in write order, the ids written
to the socket are exactly the already-settled ids followed by (at most)
the single current id — so a command is only ever written when every
previously written command has settled. -/
def sendInv (s : SendState) : Prop :=
  s.writes.map Prod.fst = settledIds s ++ (s.current.map Prod.fst).toList

theorem sendInv_next (s : SendState) (hl : s.socketLive = true) (hinv : sendInv s) :
    sendInv (nextSendQueueItem s) := by
  obtain ⟨q, cur, w, st, n, l⟩ := s
  simp only at hl
  subst hl
  cases cur with
  | some item => exact hinv
  | none =>
    cases q with
    | nil => exact hinv
    | cons item rest =>
      show sendInv ⟨rest, some item, w ++ [item], st, n, true⟩
      unfold sendInv at hinv ⊢
      simp only [settledIds] at hinv ⊢
      simp only [Option.map_none', Option.toList_none, List.append_nil] at hinv
      simp [hinv]

theorem sendStep_socketLive_eq (s : SendState) (e : SendEvent) :
    (sendStep s e).socketLive = s.socketLive := by
  cases e with
  | submit command => exact nextSendQueueItem_socketLive _
  | reply response =>
    obtain ⟨q, cur, w, st, n, l⟩ := s
    cases cur with
    | none => rfl
    | some item =>
      show SendState.socketLive
        (if (settledIds ⟨q, some item, w, st, n, l⟩).contains item.1 = true
          then _ else _) = l
      split
      · rfl
      · exact nextSendQueueItem_socketLive _
  | timeoutFires c =>
    show SendState.socketLive
      (if (settledIds s).contains c = true then _ else _) = s.socketLive
    split
    · rfl
    · exact nextSendQueueItem_socketLive _

theorem sendInv_sendStep (s : SendState) (e : SendEvent) (hl : s.socketLive = true)
    (hinv : sendInv s) (hne : ∀ c, e ≠ SendEvent.timeoutFires c) :
    sendInv (sendStep s e) := by
  cases e with
  | submit command =>
    exact sendInv_next _ hl hinv
  | reply response =>
    obtain ⟨q, cur, w, st, n, l⟩ := s
    simp only at hl
    subst hl
    cases cur with
    | none => exact hinv
    | some item =>
      by_cases hset :
          (settledIds ⟨q, some item, w, st, n, true⟩).contains item.1 = true
      · show sendInv (if (settledIds ⟨q, some item, w, st, n, true⟩).contains item.1 = true
            then _ else _)
        rw [if_pos hset]
        exact hinv
      · show sendInv (if (settledIds ⟨q, some item, w, st, n, true⟩).contains item.1 = true
            then _ else _)
        rw [if_neg hset]
        apply sendInv_next _ rfl
        unfold sendInv at hinv ⊢
        simp only [settledIds, Option.map_some', Option.toList_some] at hinv
        simp only [settledIds, Option.map_none', Option.toList_none, List.append_nil,
          List.map_append]
        simpa using hinv
  | timeoutFires c => exact absurd rfl (hne c)

theorem sendInv_runTrace (events : List SendEvent) : ∀ (s : SendState),
    s.socketLive = true → sendInv s →
    (∀ e ∈ events, ∀ c, e ≠ SendEvent.timeoutFires c) →
    sendInv (runTrace s events) := by
  induction events with
  | nil => intro s _ hinv _; exact hinv
  | cons e es ih =>
    intro s hl hinv hne
    show sendInv (runTrace (sendStep s e) es)
    apply ih
    · rw [sendStep_socketLive_eq]; exact hl
    · exact sendInv_sendStep s e hl hinv (hne e (List.mem_cons_self _ _))
    · intro e' he'; exact hne e' (List.mem_cons_of_mem _ he')

/-- C1: for every sequence of commands submitted via `send` (with the
device replying in order), the socket observes exactly the submitted
commands, in submission order (`writes = tagFrom 0 cs`); each caller's
future settles with the reply correlated to its position in that order
(`settled` zips the ids in submission order with the replies in arrival
order); and at every step of the trace at most one command is
outstanding — a command is written only when no prior command's reply
is still awaited (`sendInv` holds after every prefix of the trace). -/
theorem C1_send_serialized_fifo (cs : List String) (rs : List Parsed) (k : Nat)
    (hlen : rs.length = cs.length) :
    (runTrace initSend (cs.map SendEvent.submit ++ rs.map SendEvent.reply)).writes
        = tagFrom 0 cs
    ∧ (runTrace initSend (cs.map SendEvent.submit ++ rs.map SendEvent.reply)).settled
        = ((tagFrom 0 cs).map Prod.fst).zip (rs.map SOutcome.reply)
    ∧ (runTrace initSend (cs.map SendEvent.submit ++ rs.map SendEvent.reply)).sendQueue
        = []
    ∧ (runTrace initSend (cs.map SendEvent.submit ++ rs.map SendEvent.reply)).current
        = none
    ∧ sendInv (runTrace initSend
        ((cs.map SendEvent.submit ++ rs.map SendEvent.reply).take k)) := by
  have hinv0 : sendInv initSend := rfl
  have hinvk : sendInv (runTrace initSend
      ((cs.map SendEvent.submit ++ rs.map SendEvent.reply).take k)) := by
    apply sendInv_runTrace _ _ rfl hinv0
    intro e he c
    have he' := List.take_subset _ _ he
    rcases List.mem_append.mp he' with h | h
    · obtain ⟨x, _, hx⟩ := List.mem_map.mp h
      subst hx
      exact fun hcontra => SendEvent.noConfusion hcontra
    · obtain ⟨x, _, hx⟩ := List.mem_map.mp h
      subst hx
      exact fun hcontra => SendEvent.noConfusion hcontra
  cases cs with
  | nil =>
    have hrs : rs = [] := List.length_eq_zero.mp (by simpa using hlen)
    subst hrs
    exact ⟨rfl, rfl, rfl, rfl, hinvk⟩
  | cons c0 cs' =>
    have hlen' : rs.length = cs'.length + 1 := by simpa using hlen
    have hsplit : runTrace initSend
          ((c0 :: cs').map SendEvent.submit ++ rs.map SendEvent.reply)
        = runTrace (runTrace initSend ((c0 :: cs').map SendEvent.submit))
            (rs.map SendEvent.reply) := by
      unfold runTrace
      rw [List.foldl_append]
    have hsub : runTrace initSend ((c0 :: cs').map SendEvent.submit)
        = (⟨tagFrom (0 + 1) cs', some (0, c0), [(0, c0)], [], 1 + cs'.length, true⟩ :
            SendState) := by
      show runTrace (sendStep initSend (SendEvent.submit c0)) (cs'.map SendEvent.submit)
          = _
      have h0 : sendStep initSend (SendEvent.submit c0)
          = (⟨[], some (0, c0), [(0, c0)], [], 1, true⟩ : SendState) := rfl
      rw [h0, runTrace_submits_busy cs' _ (0, c0) rfl]
      simp
    have hfin : runTrace initSend
          ((c0 :: cs').map SendEvent.submit ++ rs.map SendEvent.reply)
        = (⟨[], none, [(0, c0)] ++ tagFrom (0 + 1) cs',
            [] ++ (0 :: (tagFrom (0 + 1) cs').map Prod.fst).zip (rs.map SOutcome.reply),
            1 + cs'.length, true⟩ : SendState) := by
      rw [hsplit, hsub]
      exact runTrace_replies rs cs' 0 c0 [(0, c0)] [] (1 + cs'.length) hlen'
        (by intro i hi; simp at hi)
    rw [hfin]
    refine ⟨?_, ?_, rfl, rfl, hinvk⟩
    · simp [tagFrom]
    · simp [tagFrom]

/-- Witness instantiating C1 on a concrete two-command trace. -/
theorem C1_send_serialized_fifo_witness :
    ([Parsed.fail "e", Parsed.env none [] none] : List Parsed).length
        = (["a", "b"] : List String).length
    ∧ ((runTrace initSend ((["a", "b"] : List String).map SendEvent.submit
          ++ ([Parsed.fail "e", Parsed.env none [] none] : List Parsed).map
              SendEvent.reply)).writes = tagFrom 0 ["a", "b"]
      ∧ (runTrace initSend ((["a", "b"] : List String).map SendEvent.submit
          ++ ([Parsed.fail "e", Parsed.env none [] none] : List Parsed).map
              SendEvent.reply)).settled
          = ((tagFrom 0 ["a", "b"]).map Prod.fst).zip
              (([Parsed.fail "e", Parsed.env none [] none] : List Parsed).map
                SOutcome.reply)
      ∧ (runTrace initSend ((["a", "b"] : List String).map SendEvent.submit
          ++ ([Parsed.fail "e", Parsed.env none [] none] : List Parsed).map
              SendEvent.reply)).sendQueue = []
      ∧ (runTrace initSend ((["a", "b"] : List String).map SendEvent.submit
          ++ ([Parsed.fail "e", Parsed.env none [] none] : List Parsed).map
              SendEvent.reply)).current = none
      ∧ sendInv (runTrace initSend (((["a", "b"] : List String).map SendEvent.submit
          ++ ([Parsed.fail "e", Parsed.env none [] none] : List Parsed).map
              SendEvent.reply).take 3))) :=
  ⟨rfl, C1_send_serialized_fifo ["a", "b"] [Parsed.fail "e", Parsed.env none [] none]
    3 rfl⟩

theorem sendStep_timeout (s : SendState) (c : Nat)
    (hset : (settledIds s).contains c = false) :
    sendStep s (SendEvent.timeoutFires c)
      = nextSendQueueItem
          { s with current := none,
                   settled := s.settled ++ [(c, SOutcome.timeout)] } := by
  show (if (settledIds s).contains c = true then _ else _) = _
  rw [if_neg (by rw [hset]; exact Bool.false_ne_true)]

/-- C2: a command that receives no routed reply within the 5-second
window settles as Timeout when its timer fires — the race rejects with
`Error('Send Timeout')` — and the queue advances: the current slot is
cleared and the next submitted command is immediately written to the
socket, so there is no permanent stall behind the hung reply. -/
theorem C2_timeout_settles_and_queue_advances (s : SendState) (c : Nat) (cmd : String)
    (d : Nat × String) (rest : List (Nat × String))
    (hcur : s.current = some (c, cmd))
    (hq : s.sendQueue = d :: rest)
    (hl : s.socketLive = true)
    (hset : (settledIds s).contains c = false) :
    (sendStep s (SendEvent.timeoutFires c)).settled
        = s.settled ++ [(c, SOutcome.timeout)]
    ∧ (sendStep s (SendEvent.timeoutFires c)).writes = s.writes ++ [d]
    ∧ (sendStep s (SendEvent.timeoutFires c)).current = some d
    ∧ (sendStep s (SendEvent.timeoutFires c)).sendQueue = rest := by
  rw [sendStep_timeout s c hset,
    nextSendQueueItem_idle_live
      { s with current := none, settled := s.settled ++ [(c, SOutcome.timeout)] }
      d rest rfl hq hl]
  exact ⟨rfl, rfl, rfl, rfl⟩

/-- Witness instantiating C2: command 0 is current and unanswered,
command 1 is queued; the timeout settles 0 and writes 1. -/
theorem C2_timeout_settles_and_queue_advances_witness :
    ((⟨[(1, "b")], some (0, "a"), [(0, "a")], [], 2, true⟩ : SendState).current
        = some (0, "a"))
    ∧ ((⟨[(1, "b")], some (0, "a"), [(0, "a")], [], 2, true⟩ : SendState).sendQueue
        = [(1, "b")])
    ∧ ((⟨[(1, "b")], some (0, "a"), [(0, "a")], [], 2, true⟩ : SendState).socketLive
        = true)
    ∧ ((settledIds ⟨[(1, "b")], some (0, "a"), [(0, "a")], [], 2, true⟩).contains 0
        = false)
    ∧ ((sendStep ⟨[(1, "b")], some (0, "a"), [(0, "a")], [], 2, true⟩
          (SendEvent.timeoutFires 0)).settled = [] ++ [(0, SOutcome.timeout)]
      ∧ (sendStep ⟨[(1, "b")], some (0, "a"), [(0, "a")], [], 2, true⟩
          (SendEvent.timeoutFires 0)).writes = [(0, "a")] ++ [(1, "b")]
      ∧ (sendStep ⟨[(1, "b")], some (0, "a"), [(0, "a")], [], 2, true⟩
          (SendEvent.timeoutFires 0)).current = some (1, "b")
      ∧ (sendStep ⟨[(1, "b")], some (0, "a"), [(0, "a")], [], 2, true⟩
          (SendEvent.timeoutFires 0)).sendQueue = []) :=
  ⟨rfl, rfl, rfl, rfl,
    C2_timeout_settles_and_queue_advances _ 0 "a" (1, "b") [] rfl rfl rfl rfl⟩

/-! ## Settling claims about the framer -/

/-- C3 (amended): as long as no pending command is current, feeding the
total byte sequence split arbitrarily across data chunks produces
exactly the same state — in particular the same sequence of decoded
envelopes, in the same order — as feeding it as one chunk, and after
the feed the buffer holds no complete unit (the parser kept consuming
buffered units until none remained).  (The unamended claim fails when a
unit completes a pending command: the `return resolve(response)` exits
`_parseRxBuffer` without draining the rest of the buffer — see the
counterexample.) -/
theorem C3_framer_chunk_invariance (decode : List Char → Parsed) (s : RxState)
    (chunks : List (List Char)) (hcur : s.route.current = none)
    (hbuf : extractUnit s.rxBuffer = none) :
    feedAll decode s chunks = onData decode s chunks.flatten
    ∧ extractUnit (feedAll decode s chunks).rxBuffer = none := by
  induction chunks generalizing s with
  | nil =>
    constructor
    · show s = parseRxBuffer decode (appendChunk s [])
      have happ : appendChunk s [] = s := by
        simp [appendChunk]
      rw [happ, parseRxBuffer_eq, hbuf]
    · exact hbuf
  | cons ch chs ih =>
    have hcur1 : (onData decode s ch).route.current = none := by
      show (parseRxBuffer decode (appendChunk s ch)).route.current = none
      rw [parseRxBuffer_current]
      exact hcur
    have hbuf1 : extractUnit (onData decode s ch).rxBuffer = none :=
      parseRxBuffer_drains decode (appendChunk s ch).rxBuffer.length _ le_rfl hcur
    obtain ⟨ih1, ih2⟩ := ih (onData decode s ch) hcur1 hbuf1
    constructor
    · show feedAll decode (onData decode s ch) chs = _
      rw [ih1]
      show parseRxBuffer decode
          (appendChunk (parseRxBuffer decode (appendChunk s ch)) chs.flatten) = _
      rw [parse_appendChunk decode (appendChunk s ch).rxBuffer.length
        (appendChunk s ch) chs.flatten le_rfl hcur]
      have happ : appendChunk (appendChunk s ch) chs.flatten
          = appendChunk s (ch ++ chs.flatten) := by
        simp [appendChunk]
      rw [happ]
      rfl
    · show extractUnit (feedAll decode (onData decode s ch) chs).rxBuffer = none
      exact ih2

/-- Witness instantiating C3 (amended) on a concrete event stream split
in two, with no pending command. -/
theorem C3_framer_chunk_invariance_witness :
    ((⟨[], ⟨none, [], []⟩, []⟩ : RxState).route.current = none)
    ∧ (extractUnit (⟨[], ⟨none, [], []⟩, []⟩ : RxState).rxBuffer = none)
    ∧ (feedAll (fun _ => Parsed.env (some "event/y") [] none)
          (⟨[], ⟨none, [], []⟩, []⟩ : RxState) [[ 'A', '\r' ], [ '\n', 'B', '\r', '\n' ]]
        = onData (fun _ => Parsed.env (some "event/y") [] none)
            (⟨[], ⟨none, [], []⟩, []⟩ : RxState)
            ([[ 'A', '\r' ], [ '\n', 'B', '\r', '\n' ]] : List (List Char)).flatten
      ∧ extractUnit (feedAll (fun _ => Parsed.env (some "event/y") [] none)
          (⟨[], ⟨none, [], []⟩, []⟩ : RxState)
          [[ 'A', '\r' ], [ '\n', 'B', '\r', '\n' ]]).rxBuffer = none) :=
  ⟨rfl, rfl,
    C3_framer_chunk_invariance (fun _ => Parsed.env (some "event/y") [] none)
      ⟨[], ⟨none, [], []⟩, []⟩ [[ 'A', '\r' ], [ '\n', 'B', '\r', '\n' ]] rfl rfl⟩

/-- A concrete decoder for the C3 counterexample: the unit "A" decodes
to a non-event reply, every other unit to an event envelope. -/
def decodeCx (u : List Char) : Parsed :=
  if u = [ 'A' ] then Parsed.env (some "player/x") [] none
  else Parsed.env (some "event/y") [] none

/-- A receive state with a pending command current (id 0). -/
def rxCx : RxState := ⟨[], ⟨some 0, [], []⟩, []⟩

/-- C3 counterexample: with a pending command current, the same total
bytes fed as one chunk or as two chunks decode different envelope
sequences.  In one chunk, the reply unit "A" settles the pending
command and `_parseRxBuffer` returns without touching the buffered
event unit "B"; split into two chunks, the second `data` event decodes
"B" as well. -/
theorem C3_framer_chunk_invariance_counterexample :
    (feedAll decodeCx rxCx [[ 'A', '\r', '\n', 'B', '\r', '\n' ]]).decoded
      ≠ (feedAll decodeCx rxCx [[ 'A', '\r', '\n' ], [ 'B', '\r', '\n' ]]).decoded := by
  decide

theorem routeResponse_eq_routeReply (response : Parsed) (x : RouteState)
    (h : isEventResp response = false) :
    routeResponse response x = routeReply response x := by
  cases response with
  | env cmd msg payload =>
    cases cmd with
    | none => exact routeResponse_env_none _ _ _
    | some c =>
      rw [routeResponse_env_some]
      rw [if_neg (by rw [show startsWithEvent c = isEventResp
          (Parsed.env (some c) msg payload) from rfl, h]; exact Bool.false_ne_true)]
  | fail m => exact routeResponse_fail _ _

/-- C6: the routing dichotomy of `_parseRxBuffer`.  An event-prefixed
response is broadcast on the generic `'event'` channel (with the event
name and message) and on its named channel (with the message), never
settles a pending command — even when one is outstanding, the routed
state changes only in `emitted` — and parsing continues.  A non-event
response emits nothing; if a command is current it settles it (reject
for an `Error` value, resolve otherwise) and parsing stops; with no
current command the response is dropped and the state is unchanged
(no crash), parsing continuing. -/
theorem C6_router_event_reply_dichotomy
    (cmd : String) (msg : List (String × QsVal)) (payload : Option Nat)
    (response : Parsed) (r rsome rnone : RouteState) (c : Nat)
    (hev : startsWithEvent cmd = true)
    (hnev : isEventResp response = false)
    (hsome : rsome.current = some c)
    (hnone : rnone.current = none) :
    routeResponse (Parsed.env (some cmd) msg payload) r
        = ({ r with
              emitted := r.emitted ++ [EmitRecord.anyEvent (eventNameOf cmd) msg,
                EmitRecord.named (eventNameOf cmd) msg] }, true)
    ∧ (routeResponse response rsome).1.emitted = rsome.emitted
    ∧ routeResponse response rsome
        = ({ rsome with settled := rsome.settled ++ [(c, settleOf response)] }, false)
    ∧ routeResponse response rnone = (rnone, true) := by
  refine ⟨?_, ?_, ?_, ?_⟩
  · rw [routeResponse_env_some, if_pos hev]
  · rw [routeResponse_eq_routeReply response rsome hnev,
      routeReply_of_some response rsome c hsome]
  · rw [routeResponse_eq_routeReply response rsome hnev,
      routeReply_of_some response rsome c hsome]
  · rw [routeResponse_eq_routeReply response rnone hnev,
      routeReply_of_none response rnone hnone]

/-- Witness instantiating C6: a concrete event envelope against a state
with a pending command, and a concrete reply against states with and
without a pending command. -/
theorem C6_router_event_reply_dichotomy_witness :
    (startsWithEvent "event/sources_changed" = true)
    ∧ (isEventResp (Parsed.env (some "player/get_volume") [] none) = false)
    ∧ ((⟨some 7, [], []⟩ : RouteState).current = some 7)
    ∧ ((⟨none, [], []⟩ : RouteState).current = none)
    ∧ (routeResponse (Parsed.env (some "event/sources_changed") [] none)
          (⟨some 7, [], []⟩ : RouteState)
        = ({ (⟨some 7, [], []⟩ : RouteState) with
              emitted := (⟨some 7, [], []⟩ : RouteState).emitted
                ++ [EmitRecord.anyEvent (eventNameOf "event/sources_changed") [],
                  EmitRecord.named (eventNameOf "event/sources_changed") []] }, true)
      ∧ (routeResponse (Parsed.env (some "player/get_volume") [] none)
          (⟨some 7, [], []⟩ : RouteState)).1.emitted
          = (⟨some 7, [], []⟩ : RouteState).emitted
      ∧ routeResponse (Parsed.env (some "player/get_volume") [] none)
          (⟨some 7, [], []⟩ : RouteState)
          = ({ (⟨some 7, [], []⟩ : RouteState) with
                settled := (⟨some 7, [], []⟩ : RouteState).settled
                  ++ [(7, settleOf (Parsed.env (some "player/get_volume") [] none))] },
              false)
      ∧ routeResponse (Parsed.env (some "player/get_volume") [] none)
          (⟨none, [], []⟩ : RouteState) = ((⟨none, [], []⟩ : RouteState), true)) :=
  ⟨by decide, rfl, rfl, rfl,
    C6_router_event_reply_dichotomy "event/sources_changed" [] none
      (Parsed.env (some "player/get_volume") [] none)
      ⟨some 7, [], []⟩ ⟨some 7, [], []⟩ ⟨none, [], []⟩ 7 (by decide) rfl rfl rfl⟩

/-! ## The connection state machine: `_connect` (lines 45-116)

`_connect`'s synchronous prologue inspects `this._state`:

* `connected`: plain `return` (no promise, no socket);
* `connecting`: `return this._connectPromise` — the very promise object
  stored by the first caller;
* `disconnecting`: await the disconnect plus one tick, then fall
  through to a fresh attempt;
* otherwise: store a fresh promise in `this._connectPromise`; its
  executor runs synchronously — `_setState('connecting')`,
  `new Socket()` (one socket opened), handler registration and the
  connect call — and the promise is returned.

Promises are identified by fresh numbers; `socketsOpened` counts
`new Socket()` constructions. -/

/-- `this._state`. -/
inductive CState where
  | disconnected
  | connecting
  | connected
  | disconnecting
deriving DecidableEq

structure ConnSt where
  state : CState
  connectPromise : Option Nat
  socketsOpened : Nat
  nextPromiseId : Nat
deriving DecidableEq

/-- What a `_connect()` call returns to its caller. -/
inductive ConnectResult where
  | immediate
  | existing (p : Option Nat)
  | started (p : Nat)
  | startedAfterDisconnect (p : Nat)
deriving DecidableEq

/-- The fresh-attempt tail of `_connect` (lines 61-115): set state to
`connecting`, open one socket, store and return a fresh promise. -/
def connectFresh (s : ConnSt) : ConnSt × Nat :=
  (⟨CState.connecting, some s.nextPromiseId, s.socketsOpened + 1,
    s.nextPromiseId + 1⟩, s.nextPromiseId)

/-- The synchronous prologue of `_connect` (lines 45-61). -/
def connectCall (s : ConnSt) : ConnSt × ConnectResult :=
  match s.state with
  | CState.connected => (s, ConnectResult.immediate)
  | CState.connecting => (s, ConnectResult.existing s.connectPromise)
  | CState.disconnecting =>
    ((connectFresh s).1, ConnectResult.startedAfterDisconnect (connectFresh s).2)
  | CState.disconnected =>
    ((connectFresh s).1, ConnectResult.started (connectFresh s).2)

/-- C4: two `connect()` calls racing on a disconnected client.  The
first stores promise `p` and opens one socket; the second, arriving
while the state is `connecting`, returns that same promise `p` —
both callers share the same in-flight outcome — changes nothing, and
opens no second socket: exactly one socket is opened in total. -/
theorem C4_concurrent_connect_single_socket (s : ConnSt)
    (h : s.state = CState.disconnected) :
    (connectCall s).2 = ConnectResult.started s.nextPromiseId
    ∧ (connectCall (connectCall s).1).2
        = ConnectResult.existing (some s.nextPromiseId)
    ∧ (connectCall (connectCall s).1).1 = (connectCall s).1
    ∧ (connectCall (connectCall s).1).1.socketsOpened = s.socketsOpened + 1 := by
  obtain ⟨st, p, so, n⟩ := s
  simp only at h
  subst h
  exact ⟨rfl, rfl, rfl, rfl⟩

/-- Witness instantiating C4 on a freshly constructed client. -/
theorem C4_concurrent_connect_single_socket_witness :
    ((⟨CState.disconnected, none, 0, 0⟩ : ConnSt).state = CState.disconnected)
    ∧ ((connectCall ⟨CState.disconnected, none, 0, 0⟩).2 = ConnectResult.started 0
      ∧ (connectCall (connectCall ⟨CState.disconnected, none, 0, 0⟩).1).2
          = ConnectResult.existing (some 0)
      ∧ (connectCall (connectCall ⟨CState.disconnected, none, 0, 0⟩).1).1
          = (connectCall ⟨CState.disconnected, none, 0, 0⟩).1
      ∧ (connectCall (connectCall ⟨CState.disconnected, none, 0, 0⟩).1).1.socketsOpened
          = 0 + 1) :=
  ⟨rfl, C4_concurrent_connect_single_socket ⟨CState.disconnected, none, 0, 0⟩ rfl⟩

/-! ## Watchdog and reconnect supervisor

`reconnect` (lines 154-181), `_onWatchdog` (lines 189-215), watchdog
arming in `_connect` (lines 103-104: `if (!this._watchdog)
this._watchdog = setInterval(..., 10000)`) and disarming in
`disconnect` (lines 121-122: `if (this._watchdog)
clearInterval(this._watchdog)` — note the field itself is never
cleared). -/

/-- Events emitted by the supervisor. -/
inductive REvent where
  | reconnecting
  | reconnected
  | reconnectError
  | watchdogError
deriving DecidableEq

/-- Supervisor-visible state.  `watchdogBusy` is `this._watchdogPromise
!== null`; `watchdogField` is `this._watchdog` (holding the interval
handle even after `clearInterval`); `liveIntervals` are the interval
timers armed and not yet cleared; `consoleErrors` counts
`console.error` calls (the swallowed disconnect failures). -/
structure SupSt where
  connState : CState
  watchdogBusy : Bool
  reconnectPromise : Option Nat
  cyclesStarted : Nat
  events : List REvent
  nextPromiseId : Nat
  watchdogField : Option Nat
  liveIntervals : List Nat
  nextTimerId : Nat
  consoleErrors : Nat
deriving DecidableEq

/-- What a `reconnect()` call returns. -/
inductive RecoResult where
  | existing (p : Nat)
  | started (p : Nat)
deriving DecidableEq

/-- The synchronous prologue of `reconnect` (lines 154-160): an
in-flight reconnect is returned as-is; otherwise a fresh cycle's
promise is stored and returned. -/
def reconnectCall (s : SupSt) : SupSt × RecoResult :=
  match s.reconnectPromise with
  | some p => (s, RecoResult.existing p)
  | none =>
    ({ s with reconnectPromise := some s.nextPromiseId,
              nextPromiseId := s.nextPromiseId + 1,
              cyclesStarted := s.cyclesStarted + 1 },
      RecoResult.started s.nextPromiseId)

/-- The asynchronous body of a reconnect cycle (lines 160-178): emit
`'reconnecting'`; `_disconnect()` with outcome `dOk` — a failure is
caught and logged to the console, and the cycle always proceeds —
then `_connect()` with outcome `cOk`; on success emit `'reconnected'`,
on failure emit `'reconnect_error'`; either way clear
`this._reconnectPromise`.  The returned flag is the settlement all
waiters of the shared promise observe (`false` propagates the
failure). -/
def reconnectRun (dOk cOk : Bool) (s : SupSt) : SupSt × Bool :=
  let s1 := { s with events := s.events ++ [REvent.reconnecting],
                     consoleErrors := s.consoleErrors + (if dOk then 0 else 1) }
  if cOk then
    ({ s1 with events := s1.events ++ [REvent.reconnected],
               reconnectPromise := none }, true)
  else
    ({ s1 with events := s1.events ++ [REvent.reconnectError],
               reconnectPromise := none }, false)

/-- One watchdog interval tick, `_onWatchdog` (lines 189-215): skip
when a probe is already in flight or the state is `connecting` or
`disconnecting`; otherwise probe (`playerGetPlayers`) with outcome
`probeOk` — on success nothing happens; on failure emit
`'watchdog_error'` and call `reconnect()`, `this._watchdogPromise`
staying set until that reconnect settles. -/
def onWatchdogTick (probeOk : Bool) (s : SupSt) : SupSt :=
  if s.watchdogBusy then s
  else if s.connState = CState.connecting then s
  else if s.connState = CState.disconnecting then s
  else if probeOk then s
  else
    (reconnectCall
      { s with watchdogBusy := true,
               events := s.events ++ [REvent.watchdogError] }).1

/-- The watchdog's continuation after its reconnect settles (lines
207-213): run the cycle, then clear `this._watchdogPromise` whichever
way it ended. -/
def watchdogRecoverySettles (dOk cOk : Bool) (s : SupSt) : SupSt :=
  { (reconnectRun dOk cOk s).1 with watchdogBusy := false }

/-- `_connect`'s success continuation (lines 100-106): state becomes
`connected` and the liveness interval is armed — but only when
`this._watchdog` is not already set (truthy handles, even cleared
ones, block arming). -/
def connectSuccessStep (s : SupSt) : SupSt :=
  if s.watchdogField = none then
    { s with connState := CState.connected,
             watchdogField := some s.nextTimerId,
             liveIntervals := s.liveIntervals ++ [s.nextTimerId],
             nextTimerId := s.nextTimerId + 1 }
  else { s with connState := CState.connected }

/-- `disconnect()` (lines 118-125): `clearInterval(this._watchdog)`
stops the interval but leaves the handle in the field; the teardown
then brings the state to `disconnected`. -/
def disconnectStep (s : SupSt) : SupSt :=
  match s.watchdogField with
  | some t => { s with connState := CState.disconnected,
                       liveIntervals := s.liveIntervals.erase t }
  | none => { s with connState := CState.disconnected }

/-- A freshly constructed client (constructor, lines 14-25). -/
def supInit : SupSt :=
  ⟨CState.disconnected, false, none, 0, [], 0, none, [], 0, 0⟩

/-- C5: `reconnect()` is idempotent under concurrent triggers — a
second caller while a cycle is in flight gets the same stored promise
back and no second cycle starts; a fresh cycle emits `'reconnecting'`,
tolerates the disconnect outcome (events and settlement are identical
for both disconnect outcomes; only the console log differs), then emits
`'reconnected'` on connect success or `'reconnect_error'` on failure,
propagating the failure to all waiters of the shared promise and
clearing it; and when the watchdog probe fails while a previous probe's
recovery is still in flight — two consecutive failures — the second
tick is skipped, so exactly one reconnect cycle runs, with a single
`'reconnecting'`/`'reconnected'` pair. -/
theorem C5_reconnect_idempotent_one_cycle (s t : SupSt) (p : Nat)
    (hs : s.reconnectPromise = some p) (ht : t.reconnectPromise = none)
    (dOk dOk' cOk : Bool) :
    reconnectCall s = (s, RecoResult.existing p)
    ∧ (reconnectCall t).2 = RecoResult.started t.nextPromiseId
    ∧ (reconnectCall t).1.cyclesStarted = t.cyclesStarted + 1
    ∧ (reconnectRun dOk cOk (reconnectCall t).1).1.events
        = (t.events ++ [REvent.reconnecting])
          ++ (if cOk then [REvent.reconnected] else [REvent.reconnectError])
    ∧ (reconnectRun dOk cOk (reconnectCall t).1).2 = cOk
    ∧ (reconnectRun dOk cOk (reconnectCall t).1).1.reconnectPromise = none
    ∧ (reconnectRun dOk cOk (reconnectCall t).1).1.events
        = (reconnectRun dOk' cOk (reconnectCall t).1).1.events
    ∧ (reconnectRun dOk cOk (reconnectCall t).1).2
        = (reconnectRun dOk' cOk (reconnectCall t).1).2
    ∧ (watchdogRecoverySettles true true (onWatchdogTick false (onWatchdogTick false
        (⟨CState.connected, false, none, 0, [], 0, some 0, [0], 1, 0⟩ :
          SupSt)))).cyclesStarted = 1
    ∧ (watchdogRecoverySettles true true (onWatchdogTick false (onWatchdogTick false
        (⟨CState.connected, false, none, 0, [], 0, some 0, [0], 1, 0⟩ :
          SupSt)))).events
        = [REvent.watchdogError, REvent.reconnecting, REvent.reconnected] := by
  obtain ⟨cs1, wb1, rp1, cyc1, ev1, np1, wf1, li1, nt1, ce1⟩ := s
  obtain ⟨cs2, wb2, rp2, cyc2, ev2, np2, wf2, li2, nt2, ce2⟩ := t
  simp only at hs ht
  subst hs ht
  refine ⟨rfl, rfl, rfl, ?_, ?_, ?_, ?_, ?_, by decide, by decide⟩
  all_goals cases cOk <;> cases dOk <;> cases dOk' <;> rfl

/-- Witness instantiating C5 at concrete supervisor states. -/
theorem C5_reconnect_idempotent_one_cycle_witness :
    ((⟨CState.connected, false, some 4, 1, [], 5, none, [], 0, 0⟩ :
        SupSt).reconnectPromise = some 4)
    ∧ ((⟨CState.connected, false, none, 0, [], 0, none, [], 0, 0⟩ :
        SupSt).reconnectPromise = none)
    ∧ (reconnectCall ⟨CState.connected, false, some 4, 1, [], 5, none, [], 0, 0⟩
        = (⟨CState.connected, false, some 4, 1, [], 5, none, [], 0, 0⟩,
            RecoResult.existing 4)
      ∧ (reconnectCall (⟨CState.connected, false, none, 0, [], 0, none, [], 0, 0⟩ :
          SupSt)).2 = RecoResult.started 0
      ∧ (reconnectCall (⟨CState.connected, false, none, 0, [], 0, none, [], 0, 0⟩ :
          SupSt)).1.cyclesStarted = 0 + 1
      ∧ (reconnectRun false true (reconnectCall
          (⟨CState.connected, false, none, 0, [], 0, none, [], 0, 0⟩ :
            SupSt)).1).1.events
          = (([] : List REvent) ++ [REvent.reconnecting]) ++
            (if true then [REvent.reconnected] else [REvent.reconnectError])
      ∧ (reconnectRun false true (reconnectCall
          (⟨CState.connected, false, none, 0, [], 0, none, [], 0, 0⟩ :
            SupSt)).1).2 = true
      ∧ (reconnectRun false true (reconnectCall
          (⟨CState.connected, false, none, 0, [], 0, none, [], 0, 0⟩ :
            SupSt)).1).1.reconnectPromise = none
      ∧ (reconnectRun false true (reconnectCall
          (⟨CState.connected, false, none, 0, [], 0, none, [], 0, 0⟩ :
            SupSt)).1).1.events
          = (reconnectRun true true (reconnectCall
              (⟨CState.connected, false, none, 0, [], 0, none, [], 0, 0⟩ :
                SupSt)).1).1.events
      ∧ (reconnectRun false true (reconnectCall
          (⟨CState.connected, false, none, 0, [], 0, none, [], 0, 0⟩ :
            SupSt)).1).2
          = (reconnectRun true true (reconnectCall
              (⟨CState.connected, false, none, 0, [], 0, none, [], 0, 0⟩ :
                SupSt)).1).2
      ∧ (watchdogRecoverySettles true true (onWatchdogTick false (onWatchdogTick false
          (⟨CState.connected, false, none, 0, [], 0, some 0, [0], 1, 0⟩ :
            SupSt)))).cyclesStarted = 1
      ∧ (watchdogRecoverySettles true true (onWatchdogTick false (onWatchdogTick false
          (⟨CState.connected, false, none, 0, [], 0, some 0, [0], 1, 0⟩ :
            SupSt)))).events
          = [REvent.watchdogError, REvent.reconnecting, REvent.reconnected]) :=
  ⟨rfl, rfl,
    C5_reconnect_idempotent_one_cycle
      ⟨CState.connected, false, some 4, 1, [], 5, none, [], 0, 0⟩
      ⟨CState.connected, false, none, 0, [], 0, none, [], 0, 0⟩ 4 rfl rfl
      false true true⟩

/-- C9 (the code contradicts the claim): on the trace
`connect(); disconnect(); connect()` the first connect success arms the
10-second interval (timer 0 live) and `disconnect()` disarms it — but
`disconnect()` leaves the cleared handle in `this._watchdog`, so the
second successful connect finds the field truthy, skips `setInterval`,
and no interval is live afterwards, although the claim requires the
timer to be armed after every successful connect.  The tick-skip
conditions of the claim do hold: a tick is a no-op when a probe is in
flight or the state is `connecting` or `disconnecting`. -/
theorem C9_watchdog_not_rearmed_after_disconnect :
    (connectSuccessStep supInit).liveIntervals = [0]
    ∧ (connectSuccessStep supInit).watchdogField = some 0
    ∧ (disconnectStep (connectSuccessStep supInit)).liveIntervals = []
    ∧ (disconnectStep (connectSuccessStep supInit)).watchdogField = some 0
    ∧ (connectSuccessStep (disconnectStep (connectSuccessStep supInit))).connState
        = CState.connected
    ∧ (connectSuccessStep (disconnectStep (connectSuccessStep supInit))).liveIntervals
        = []
    ∧ onWatchdogTick false
        (⟨CState.connected, true, none, 0, [], 0, some 0, [0], 1, 0⟩ : SupSt)
        = ⟨CState.connected, true, none, 0, [], 0, some 0, [0], 1, 0⟩
    ∧ onWatchdogTick false
        (⟨CState.connecting, false, none, 0, [], 0, some 0, [0], 1, 0⟩ : SupSt)
        = ⟨CState.connecting, false, none, 0, [], 0, some 0, [0], 1, 0⟩
    ∧ onWatchdogTick false
        (⟨CState.disconnecting, false, none, 0, [], 0, some 0, [0], 1, 0⟩ : SupSt)
        = ⟨CState.disconnecting, false, none, 0, [], 0, some 0, [0], 1, 0⟩ := by
  refine ⟨?_, ?_, ?_, ?_, ?_, ?_, ?_, ?_, ?_⟩ <;> decide

/-! ## `playerGetPlayers` (lines 366-376) -/

/-- JavaScript values, as far as truthiness is concerned.  Numbers are
modelled as integers (`NaN` does not arise here; the tested value is an
object). -/
inductive JSVal where
  | undefined
  | jsNull
  | jsBool (b : Bool)
  | jsNum (n : Int)
  | jsStr (s : String)
  | jsObj (id : Nat)
deriving DecidableEq

/-- JavaScript truthiness. -/
def jsTruthy : JSVal → Bool
  | JSVal.undefined => false
  | JSVal.jsNull => false
  | JSVal.jsBool b => b
  | JSVal.jsNum n => n != 0
  | JSVal.jsStr s => s != ""
  | JSVal.jsObj _ => true

/-- `result.payload` of a resolved envelope. -/
def envPayload : Parsed → Option Nat
  | Parsed.env _ _ payload => payload
  | Parsed.fail _ => none

/-- `playerGetPlayers` (lines 366-376): `players` is assigned the
Promise object returned by `this.send(...).then(result =>
result.payload)` — not the resolved value — so `if (players)` tests a
Promise object.  `replies i` is the envelope routed back for the i-th
request this method issues; the function returns the list of requests
issued and the payload the caller's future resolves with. -/
def playerGetPlayers (replies : Nat → Parsed) : List String × Option Nat :=
  let players : JSVal := JSVal.jsObj 0
  if jsTruthy players then
    (["player/get_players"], envPayload (replies 0))
  else
    (["player/get_players", "player/get_players"], envPayload (replies 1))

/-- C10: `playerGetPlayers` always issues exactly one
`player/get_players` request and resolves with that single reply's
payload; the "try again" branch is unreachable because the guard tests
the promise object, which is always truthy. -/
theorem C10_playerGetPlayers_single_request (replies : Nat → Parsed) :
    playerGetPlayers replies = (["player/get_players"], envPayload (replies 0)) := rfl

/-! ## Settling claims about the wire format and query-string decoding -/

theorem qsUnescapeL_id : ∀ (l : List Char), (∀ c ∈ l, c ≠ '%') → qsUnescapeL l = l := by
  intro l
  induction l with
  | nil => intro _; rfl
  | cons c rest ih =>
    intro h
    have hc : c ≠ '%' := h c (List.mem_cons_self _ _)
    have he : qsUnescapeL (c :: rest) = c :: qsUnescapeL rest := by
      rw [qsUnescapeL.eq_def]
      simp only
      rw [if_neg hc]
    rw [he, ih (fun d hd => h d (List.mem_cons_of_mem _ hd))]

theorem qsEscapeL_id : ∀ (l : List Char), (∀ c ∈ l, unreservedChar c = true) →
    qsEscapeL l = l := by
  intro l
  induction l with
  | nil => intro _; rfl
  | cons c rest ih =>
    intro h
    simp only [qsEscapeL]
    rw [if_pos (h c (List.mem_cons_self _ _)),
      ih (fun d hd => h d (List.mem_cons_of_mem _ hd))]
    rfl

theorem unreserved_ne_pct {c : Char} (h : unreservedChar c = true) : c ≠ '%' := by
  intro hc
  subst hc
  exact absurd h (by decide)

/-- All keys and values of the pair list consist of characters that
`querystring.escape` leaves alone. -/
def allUnreserved (qs : List (String × String)) : Prop :=
  ∀ p ∈ qs, (∀ c ∈ p.1.data, unreservedChar c = true)
    ∧ (∀ c ∈ p.2.data, unreservedChar c = true)

theorem qsStringifyL_raw : ∀ (qs : List (String × String)), allUnreserved qs →
    qsStringifyL qs = rawPairsL qs := by
  intro qs
  induction qs with
  | nil => intro _; rfl
  | cons p rest ih =>
    intro h
    obtain ⟨k, v⟩ := p
    obtain ⟨hk, hv⟩ := h (k, v) (List.mem_cons_self _ _)
    cases rest with
    | nil =>
      simp only [qsStringifyL, rawPairsL]
      rw [qsEscapeL_id _ hk, qsEscapeL_id _ hv]
    | cons q rest' =>
      simp only [qsStringifyL, rawPairsL]
      rw [qsEscapeL_id _ hk, qsEscapeL_id _ hv,
        ih (fun p hp => h p (List.mem_cons_of_mem _ hp))]

theorem rawPairsL_no_pct : ∀ (qs : List (String × String)), allUnreserved qs →
    ∀ c ∈ rawPairsL qs, c ≠ '%' := by
  intro qs
  induction qs with
  | nil => intro _ c hc; exact absurd hc (List.not_mem_nil c)
  | cons p rest ih =>
    intro h c hc
    obtain ⟨k, v⟩ := p
    obtain ⟨hk, hv⟩ := h (k, v) (List.mem_cons_self _ _)
    cases rest with
    | nil =>
      simp only [rawPairsL, List.mem_append, List.mem_cons, List.not_mem_nil,
        or_false] at hc
      rcases hc with (hc | hc) | hc
      · exact unreserved_ne_pct (hk c hc)
      · subst hc; decide
      · exact unreserved_ne_pct (hv c hc)
    | cons q rest' =>
      simp only [rawPairsL, List.mem_append, List.mem_cons, List.not_mem_nil,
        or_false] at hc
      rcases hc with (((hc | hc) | hc) | hc) | hc
      · exact unreserved_ne_pct (hk c hc)
      · subst hc; decide
      · exact unreserved_ne_pct (hv c hc)
      · subst hc; decide
      · exact ih (fun p hp => h p (List.mem_cons_of_mem _ hp)) c hc

/-- C8 (amended): every request written to the socket is the single
CR-LF-terminated line `heos://<command>?` followed by the `key=value`
pairs joined by `&` — with the url-encoding applied by
`querystring.stringify` immediately undone by `querystring.unescape`,
so the parameters appear raw on the wire.  When every key and value
character is url-safe (left alone by the encoder), this coincides with
the url-encoded form the claim describes (`specWireLine`). -/
theorem C8_wire_format_raw_pairs (command : String) (qs : List (String × String))
    (h : allUnreserved qs) :
    writeData true command qs
      = some ("heos://".data ++ command.data ++ [ '?' ] ++ rawPairsL qs ++ delim)
    ∧ writeData true command qs = some (specWireLine command qs) := by
  have hs : qsStringifyL qs = rawPairsL qs := qsStringifyL_raw qs h
  have hu : qsUnescapeL (qsStringifyL qs) = rawPairsL qs := by
    rw [hs]
    exact qsUnescapeL_id _ (rawPairsL_no_pct qs h)
  constructor
  · show some ("heos://".data ++ command.data ++ [ '?' ]
        ++ qsUnescapeL (qsStringifyL qs) ++ delim) = _
    rw [hu]
  · show some ("heos://".data ++ command.data ++ [ '?' ]
        ++ qsUnescapeL (qsStringifyL qs) ++ delim)
      = some ("heos://".data ++ command.data ++ [ '?' ] ++ qsStringifyL qs ++ delim)
    rw [hu, hs]

/-- Witness instantiating C8 (amended) on `player/get_volume?pid=1`. -/
theorem C8_wire_format_raw_pairs_witness :
    allUnreserved [("pid", "1")]
    ∧ (writeData true "player/get_volume" [("pid", "1")]
        = some ("heos://".data ++ "player/get_volume".data ++ [ '?' ]
            ++ rawPairsL [("pid", "1")] ++ delim)
      ∧ writeData true "player/get_volume" [("pid", "1")]
          = some (specWireLine "player/get_volume" [("pid", "1")])) :=
  ⟨by unfold allUnreserved; decide,
    C8_wire_format_raw_pairs "player/get_volume" [("pid", "1")]
      (by unfold allUnreserved; decide)⟩

/-- C8 counterexample: the claim's bit-exact url-encoded form is wrong
for any parameter needing encoding.  For `pid = "a b"` the code writes
the space raw (`pid=a b`), not url-encoded (`pid=a%20b`): `stringify`
produces `pid=a%20b` but `_write` then applies `unescape`, which
decodes it back. -/
theorem C8_url_encoded_counterexample :
    writeData true "player/set_volume" [("pid", "a b")]
        = some ("heos://".data ++ "player/set_volume".data ++ [ '?' ]
            ++ "pid=a b".data ++ delim)
    ∧ specWireLine "player/set_volume" [("pid", "a b")]
        = "heos://".data ++ "player/set_volume".data ++ [ '?' ]
            ++ "pid=a%20b".data ++ delim
    ∧ writeData true "player/set_volume" [("pid", "a b")]
        ≠ some (specWireLine "player/set_volume" [("pid", "a b")]) := by
  refine ⟨by decide, by decide, by decide⟩

theorem splitOnAmp_no_amp : ∀ (x : List Char), (∀ c ∈ x, c ≠ '&') →
    splitOnAmp x = [x] := by
  intro x
  induction x with
  | nil => intro _; rfl
  | cons c cs ih =>
    intro h
    have hc : c ≠ '&' := h c (List.mem_cons_self _ _)
    rw [splitOnAmp.eq_def]
    simp only
    rw [if_neg hc, ih (fun d hd => h d (List.mem_cons_of_mem _ hd))]

theorem splitOnAmp_append : ∀ (x y : List Char), (∀ c ∈ x, c ≠ '&') →
    splitOnAmp (x ++ '&' :: y) = x :: splitOnAmp y := by
  intro x y
  induction x with
  | nil =>
    intro _
    show splitOnAmp ('&' :: y) = [] :: splitOnAmp y
    rw [splitOnAmp.eq_def]
    simp only
    rw [if_pos trivial]
  | cons c cs ih =>
    intro h
    have hc : c ≠ '&' := h c (List.mem_cons_self _ _)
    show splitOnAmp (c :: (cs ++ '&' :: y)) = _
    rw [splitOnAmp.eq_def]
    simp only
    rw [if_neg hc, ih (fun d hd => h d (List.mem_cons_of_mem _ hd))]

theorem splitPair_append : ∀ (kk v : List Char), (∀ c ∈ kk, c ≠ '=') →
    splitPair (kk ++ '=' :: v) = (kk, v) := by
  intro kk v
  induction kk with
  | nil =>
    intro _
    show splitPair ('=' :: v) = ([], v)
    rw [splitPair.eq_def]
    simp only
    rw [if_pos trivial]
  | cons c cs ih =>
    intro h
    have hc : c ≠ '=' := h c (List.mem_cons_self _ _)
    show splitPair (c :: (cs ++ '=' :: v)) = _
    rw [splitPair.eq_def]
    simp only
    rw [if_neg hc, ih (fun d hd => h d (List.mem_cons_of_mem _ hd))]

theorem plusToSpace_id : ∀ (l : List Char), (∀ c ∈ l, c ≠ '+') →
    l.map (fun c => if c = '+' then ' ' else c) = l := by
  intro l
  induction l with
  | nil => intro _; rfl
  | cons c rest ih =>
    intro h
    simp only [List.map_cons]
    rw [if_neg (h c (List.mem_cons_self _ _)),
      ih (fun d hd => h d (List.mem_cons_of_mem _ hd))]

theorem qsDecodePiece_id (l : List Char) (h : ∀ c ∈ l, c ≠ '%' ∧ c ≠ '+') :
    qsDecodePiece l = ⟨l⟩ := by
  unfold qsDecodePiece
  rw [plusToSpace_id l (fun c hc => (h c hc).2),
    qsUnescapeL_id l (fun c hc => (h c hc).1)]

/-- Decoding `k=v1&k=v2` for a repeated key `k` (no separator or escape
characters in the pieces): the two values are collected into an array,
in occurrence order. -/
theorem qsparseL_dup_pair (kk w1 w2 : List Char)
    (hk : ∀ c ∈ kk, c ≠ '&' ∧ c ≠ '=' ∧ c ≠ '%' ∧ c ≠ '+')
    (h1 : ∀ c ∈ w1, c ≠ '&' ∧ c ≠ '=' ∧ c ≠ '%' ∧ c ≠ '+')
    (h2 : ∀ c ∈ w2, c ≠ '&' ∧ c ≠ '=' ∧ c ≠ '%' ∧ c ≠ '+') :
    qsparseL ((kk ++ '=' :: w1) ++ '&' :: (kk ++ '=' :: w2))
      = [(⟨kk⟩, QsVal.arr [⟨w1⟩, ⟨w2⟩])] := by
  have hno1 : ∀ c ∈ (kk ++ '=' :: w1), c ≠ '&' := by
    intro c hc
    rcases List.mem_append.mp hc with hc | hc
    · exact (hk c hc).1
    · rcases List.mem_cons.mp hc with hc | hc
      · subst hc; decide
      · exact (h1 c hc).1
  have hno2 : ∀ c ∈ (kk ++ '=' :: w2), c ≠ '&' := by
    intro c hc
    rcases List.mem_append.mp hc with hc | hc
    · exact (hk c hc).1
    · rcases List.mem_cons.mp hc with hc | hc
      · subst hc; decide
      · exact (h2 c hc).1
  have hsplit : splitOnAmp ((kk ++ '=' :: w1) ++ '&' :: (kk ++ '=' :: w2))
      = [kk ++ '=' :: w1, kk ++ '=' :: w2] := by
    rw [splitOnAmp_append _ _ hno1, splitOnAmp_no_amp _ hno2]
  have hp1ne : (kk ++ '=' :: w1) ≠ [] := by
    intro heq; cases kk <;> simp at heq
  have hp2ne : (kk ++ '=' :: w2) ≠ [] := by
    intro heq; cases kk <;> simp at heq
  unfold qsparseL
  rw [hsplit]
  have hfil : List.filter (fun piece => piece ≠ ([] : List Char))
        [kk ++ '=' :: w1, kk ++ '=' :: w2]
      = [kk ++ '=' :: w1, kk ++ '=' :: w2] := by
    simp [hp1ne, hp2ne]
  rw [hfil]
  simp only [List.foldl_cons, List.foldl_nil]
  rw [splitPair_append kk w1 (fun c hc => (hk c hc).2.1),
    splitPair_append kk w2 (fun c hc => (hk c hc).2.1)]
  simp only
  rw [qsDecodePiece_id kk (fun c hc => ⟨(hk c hc).2.2.1, (hk c hc).2.2.2⟩),
    qsDecodePiece_id w1 (fun c hc => ⟨(h1 c hc).2.2.1, (h1 c hc).2.2.2⟩),
    qsDecodePiece_id w2 (fun c hc => ⟨(h2 c hc).2.2.1, (h2 c hc).2.2.2⟩)]
  simp [qsAddPair]

/-- Keys and values free of the query-string separator and escape
characters. -/
def noSpecialChars (s : String) : Prop :=
  ∀ c ∈ s.data, c ≠ '&' ∧ c ≠ '=' ∧ c ≠ '%' ∧ c ≠ '+'

/-- C7 (amended): message decoding follows Node `querystring.parse`
semantics — a repeated key's values are collected into an array in
occurrence order (not last-occurrence-wins) — and for the
`player/get_volume` scenario, the reply body `pid=1&level=50` decodes
to the flat mapping with `pid = "1"` and `level = "50"`, which is what
`_responseParser` puts into the resolved envelope's `message`. -/
theorem C7_message_decoding (k v1 v2 : String)
    (hk : noSpecialChars k) (h1 : noSpecialChars v1) (h2 : noSpecialChars v2) :
    qsparse (k ++ "=" ++ v1 ++ "&" ++ k ++ "=" ++ v2) = [(k, QsVal.arr [v1, v2])]
    ∧ qsparse "pid=1&level=50"
        = [("pid", QsVal.str "1"), ("level", QsVal.str "50")]
    ∧ responseParser ⟨some ⟨some "success", some "player/get_volume",
          some "pid=1&level=50"⟩, none⟩
        = Parsed.env (some "player/get_volume")
            [("pid", QsVal.str "1"), ("level", QsVal.str "50")] none := by
  refine ⟨?_, by decide, by decide⟩
  have hde : ("=" : String).data = [ '=' ] := rfl
  have hda : ("&" : String).data = [ '&' ] := rfl
  have hdata : (k ++ "=" ++ v1 ++ "&" ++ k ++ "=" ++ v2).data
      = (k.data ++ '=' :: v1.data) ++ '&' :: (k.data ++ '=' :: v2.data) := by
    simp [String.data_append, hde, hda]
  unfold qsparse
  rw [hdata]
  exact qsparseL_dup_pair k.data v1.data v2.data hk h1 h2

/-- Witness instantiating C7 (amended) at `a=1&a=2`. -/
theorem C7_message_decoding_witness :
    noSpecialChars "a" ∧ noSpecialChars "1" ∧ noSpecialChars "2"
    ∧ (qsparse ("a" ++ "=" ++ "1" ++ "&" ++ "a" ++ "=" ++ "2")
          = [("a", QsVal.arr ["1", "2"])]
      ∧ qsparse "pid=1&level=50"
          = [("pid", QsVal.str "1"), ("level", QsVal.str "50")]
      ∧ responseParser ⟨some ⟨some "success", some "player/get_volume",
            some "pid=1&level=50"⟩, none⟩
          = Parsed.env (some "player/get_volume")
              [("pid", QsVal.str "1"), ("level", QsVal.str "50")] none) :=
  ⟨by unfold noSpecialChars; decide, by unfold noSpecialChars; decide,
    by unfold noSpecialChars; decide,
    C7_message_decoding "a" "1" "2" (by unfold noSpecialChars; decide)
      (by unfold noSpecialChars; decide) (by unfold noSpecialChars; decide)⟩

/-- C7 counterexample: on `a=1&a=2` Node's `querystring.parse` (as used
by `_responseParser`) produces the array value `["1", "2"]`, not the
last-occurrence-wins string `"2"` the claim describes — the decoded
mapping is not a flat string-to-string mapping. -/
theorem C7_last_wins_counterexample :
    qsparse "a=1&a=2" = [("a", QsVal.arr ["1", "2"])]
    ∧ qsparseLastWins "a=1&a=2" = [("a", QsVal.str "2")]
    ∧ qsparse "a=1&a=2" ≠ qsparseLastWins "a=1&a=2" := by
  refine ⟨by decide, by decide, by decide⟩

end DenonHeos
